import Mathlib

/-!
Verification of the og-marl trajectory reassembly and windowed replay
subsystem: a shallow embedding of `og_marl/replay_buffers.py` and
`og_marl/offline_dataset.py`, with theorems settling the specification
claims about chunk decoding, episode reassembly, the bounded trajectory
store, the online window accumulator, file ordering and attribute
delegation.

Conventions: per-agent tensors become `List Int` (one entry per agent;
the leaf tensors themselves carry no structure the claims depend on),
scalar floats holding 0/1 flags become `Int` or `Nat`, the time axis
becomes a Lean `List`, and fallible code returns `Option`.
-/

/-- A decoded timestep as assembled by `OfflineMARLDataset._decode_fn`:
per-agent observations/actions/rewards/terminals/truncations/legals
(one list entry per agent), the global env state, and the zero-padding
mask flag. -/
structure Timestep where
  observations : List Int
  actions : List Int
  rewards : List Int
  terminals : List Int
  truncations : List Int
  legals : List Int
  state : Int
  mask : Nat
  deriving Repr, DecidableEq

/-- A raw recorded timestep as stored in a tfrecord chunk, before
`_decode_fn` runs: per-agent observations, legal actions, actions,
rewards and discounts, plus the global env state and the
zero-padding-mask flag for this position of the chunk. -/
structure RawTimestep where
  observations : List Int
  legalActions : List Int
  actions : List Int
  rewards : List Int
  discounts : List Int
  state : Int
  mask : Nat
  deriving Repr, DecidableEq

/-- Pointwise (single-timestep) form of `OfflineMARLDataset._decode_fn`:
observations/actions/rewards are passed through, `terminals` is
`1 - discounts` elementwise over agents, `truncations` is zero with the
shape of `discounts`, `legals` copies `legal_actions`, and the mask and
state are passed through. -/
def decodeTimestep (r : RawTimestep) : Timestep :=
  { observations := r.observations
    actions := r.actions
    rewards := r.rewards
    terminals := r.discounts.map (fun d => 1 - d)
    truncations := r.discounts.map (fun _ => 0)
    legals := r.legalActions
    state := r.state
    mask := r.mask }

/-- A raw tfrecord example in struct-of-arrays form, exactly the fields
parsed by `OfflineMARLDataset._decode_fn` per the schema of
`get_schema_dtypes`: for each agent a time-indexed list, plus the global
zero-padding mask, env state and episode return. `A` is the agent type. -/
structure RawExample (A : Type) where
  observations : A → List Int
  legalActions : A → List Int
  actions : A → List Int
  rewards : A → List Int
  discounts : A → List Int
  zeroPaddingMask : List Nat
  envState : List Int
  episodeReturn : Int

/-- The decoded sample structure built by `OfflineMARLDataset._decode_fn`. -/
structure Sample (A : Type) where
  observations : A → List Int
  actions : A → List Int
  rewards : A → List Int
  terminals : A → List Int
  truncations : A → List Int
  legals : A → List Int
  mask : List Nat
  state : List Int
  episodeReturn : Int

/-- `OfflineMARLDataset._decode_fn`: builds the sample dict from a parsed
example; `terminals[agent] = 1 - discounts[agent]`,
`truncations[agent] = zeros_like(discounts[agent])`,
`legals[agent] = legal_actions[agent]`, and mask/state/episode_return are
copied from the extras. -/
def decodeFn {A : Type} (ex : RawExample A) : Sample A :=
  { observations := ex.observations
    actions := ex.actions
    rewards := ex.rewards
    terminals := fun a => (ex.discounts a).map (fun d => 1 - d)
    truncations := fun a => (ex.discounts a).map (fun _ => 0)
    legals := ex.legalActions
    mask := ex.zeroPaddingMask
    state := ex.envState
    episodeReturn := ex.episodeReturn }

/-! ## Episode reassembler (`FlashbaxReplayBuffer.populate_from_dataset`) -/

/-- The per-episode accumulator and emitted-episode list threaded through
the chunk loop of `FlashbaxReplayBuffer.populate_from_dataset`:
`episode` is the list of taken period-slices appended so far (the code
keeps one python list per field per agent; appending the same slice to
each is equivalent to appending the slice of whole timesteps),
`episodeLength` is the running sum of the zero-padding mask over taken
slices, and `experience` is the list of emitted (truncated) episodes. -/
structure ReassemblyState where
  episode : List (List Timestep)
  episodeLength : Nat
  experience : List (List Timestep)
  deriving Repr, DecidableEq

/-- Sum of the zero-padding-mask entries of a slice
(`np.sum(zero_padding_mask, dtype=int)`). -/
def maskSum (slice : List Timestep) : Nat :=
  (slice.map Timestep.mask).sum

/-- The terminal flag of the reference (first) agent at the last timestep
of a slice: `int(list(episode["terminals"].values())[0][-1][-1])`, where
the last appended slice is the current chunk's period-prefix.  An empty
slice would raise an IndexError in the source; the `none` branch is
unreachable under the `0 < period ≤ sequence_length` conditions all
theorems assume. -/
def agent0TerminalOfLast (slice : List Timestep) : Int :=
  match slice.getLast? with
  | some ts => ts.terminals.getD 0 0
  | none => 0

/-- The episode-emission condition checked after appending a chunk's
period-prefix: the last taken timestep has `terminals == 1` for agent 0,
or the accumulated `episode_length` reached `max_episode_length`. -/
def emitCond (period maxEpisodeLength : Nat) (s : ReassemblyState)
    (chunk : List Timestep) : Prop :=
  agent0TerminalOfLast (chunk.take period) = 1 ∨
    s.episodeLength + maskSum (chunk.take period) ≥ maxEpisodeLength

instance (period maxEpisodeLength : Nat) (s : ReassemblyState)
    (chunk : List Timestep) :
    Decidable (emitCond period maxEpisodeLength s chunk) := by
  unfold emitCond; infer_instance

/-- One iteration of the inner loop of
`FlashbaxReplayBuffer.populate_from_dataset` on a single decoded chunk:
take the first `period` timesteps, add their mask-sum to
`episode_length`, append the slice to the per-episode accumulator; if
the emission condition holds, concatenate the accumulated slices,
truncate to `episode_length`, append to `experience`, and reset the
accumulator and `episode_length`. -/
def processChunk (period maxEpisodeLength : Nat) (s : ReassemblyState)
    (chunk : List Timestep) : ReassemblyState :=
  let slice := chunk.take period
  let newLength := s.episodeLength + maskSum slice
  let newEpisode := s.episode ++ [slice]
  if emitCond period maxEpisodeLength s chunk then
    { episode := []
      episodeLength := 0
      experience := s.experience ++ [(newEpisode.flatten).take newLength] }
  else
    { episode := newEpisode, episodeLength := newLength,
      experience := s.experience }

/-- The flashbax `TrajectoryBufferState` assembled at the end of
`populate_from_dataset`: the concatenated experience (the leading batch
dimension added by `expand_dims` is dropped, being identically 1), the
`current_index` and the `is_full` flag. -/
structure BufferState where
  experience : List Timestep
  currentIndex : Nat
  isFull : Bool
  deriving Repr, DecidableEq

/-- `FlashbaxReplayBuffer.populate_from_dataset`, as a function of the
decoded chunk stream (the tf batching by 2048 only groups consecutive
chunks and does not change the order in which the inner loop visits
them): fold the chunk loop from an empty accumulator, then concatenate
the emitted episodes into the backing experience arrays and build a
`TrajectoryBufferState` with `current_index = 0` and `is_full = False`.
`np.concatenate` raises on an empty list, so the result is `none` when
no episode was emitted. -/
def populateFromDataset (period maxEpisodeLength : Nat)
    (chunks : List (List Timestep)) : Option BufferState :=
  let final := chunks.foldl (processChunk period maxEpisodeLength)
    { episode := [], episodeLength := 0, experience := [] }
  if final.experience.isEmpty then none
  else some { experience := final.experience.flatten, currentIndex := 0,
              isFull := false }

/-! ## Chunk recording (modelled from the spec) -/

/-- A raw timestep whose fields are all the zero value of their type:
the zero padding written past the true end of an episode when the final
chunk is recorded (`mask = 0`, discounts zero). -/
def zeroRawTimestep (n : Nat) : RawTimestep :=
  { observations := List.replicate n 0
    legalActions := List.replicate n 0
    actions := List.replicate n 0
    rewards := List.replicate n 0
    discounts := List.replicate n 0
    state := 0
    mask := 0 }

/-- Modelled from the spec: the recorder (not part of src/) takes a
sliding window of length `sequence_length` over the episode at stride
`period`; chunk `i` starts at offset `i * period` and positions past the
episode's end are zero padding.  `n` is the number of agents. -/
def chunkAt (sequenceLength period n : Nat) (ep : List RawTimestep)
    (i : Nat) : List RawTimestep :=
  (List.range sequenceLength).map
    (fun j => ep.getD (i * period + j) (zeroRawTimestep n))

/-- Modelled from the spec: number of chunks recorded for an episode of
length `L` at stride `period` — enough that the non-overlapping
period-prefixes tile the whole episode, i.e. `⌈L / period⌉`. -/
def numChunks (period L : Nat) : Nat := (L + period - 1) / period

/-- Modelled from the spec: the full list of overlapping chunks recorded
for one episode, in recording order. -/
def chunkEpisode (sequenceLength period n : Nat)
    (ep : List RawTimestep) : List (List RawTimestep) :=
  (List.range (numChunks period ep.length)).map
    (chunkAt sequenceLength period n ep)

/-! ## Online window accumulator (`SequenceCPPRB`) -/

/-- One timestep handed to `SequenceCPPRB.add`: per-agent observations,
actions, rewards, terminals, truncations and legal-action masks plus the
global state from `infos` (the model fixes the configuration in which
`legals` and `state` are present in `info_spec`). -/
structure InputTimestep where
  observations : List Int
  actions : List Int
  rewards : List Int
  terminals : List Int
  truncations : List Int
  legals : List Int
  state : Int
  deriving Repr, DecidableEq

/-- The slot value written by `SequenceCPPRB.add` at position `t` of the
in-progress window: every field of the input, and `mask` set to 1. -/
def writeSlot (inp : InputTimestep) : Timestep :=
  { observations := inp.observations
    actions := inp.actions
    rewards := inp.rewards
    terminals := inp.terminals
    truncations := inp.truncations
    legals := inp.legals
    state := inp.state
    mask := 1 }

/-- The all-zero slot: every per-field array of the sequence buffer is
created by `np.zeros`, and `_zero_pad` writes zeros of the same shapes
(mask included). -/
def zeroTimestep (n : Nat) : Timestep :=
  { observations := List.replicate n 0
    actions := List.replicate n 0
    rewards := List.replicate n 0
    terminals := List.replicate n 0
    truncations := List.replicate n 0
    legals := List.replicate n 0
    state := 0
    mask := 0 }

/-- The mutable state of a `SequenceCPPRB`: the fill cursor `_t`, the
fixed-length `_sequence_buffer` (its per-key arrays gathered into one
list of slots), and the list of windows pushed so far into the
underlying cpprb store by `_push_to_cpprb`. -/
structure SeqCPPRBState where
  sequenceLength : Nat
  t : Nat
  sequenceBuffer : List Timestep
  pushed : List (List Timestep)
  deriving Repr, DecidableEq

/-- `SequenceCPPRB.__init__` for `n` agents and window length `L`: the
sequence buffer starts as zeros, the cursor at 0, nothing pushed. -/
def SeqCPPRB.init (n L : Nat) : SeqCPPRBState :=
  { sequenceLength := L
    t := 0
    sequenceBuffer := List.replicate L (zeroTimestep n)
    pushed := [] }

/-- `SequenceCPPRB.add`: write the timestep's fields into slot `_t` with
`mask = 1`, increment `_t`; when `_t` reaches `_sequence_length`, push
the (just written) sequence buffer to the cpprb store and reset `_t` to
0.  The buffer itself is not cleared after a push. -/
def SeqCPPRB.add (s : SeqCPPRBState) (inp : InputTimestep) : SeqCPPRBState :=
  let buf := s.sequenceBuffer.set s.t (writeSlot inp)
  if s.t + 1 = s.sequenceLength then
    { sequenceLength := s.sequenceLength, t := 0, sequenceBuffer := buf,
      pushed := s.pushed ++ [buf] }
  else
    { sequenceLength := s.sequenceLength, t := s.t + 1,
      sequenceBuffer := buf, pushed := s.pushed }

/-- `SequenceCPPRB._zero_pad`: overwrite slots `[_t, sequence_length)` of
every field of the sequence buffer with zeros of the matching shape
(this zeroes the mask entries of those slots too). -/
def SeqCPPRB.zeroPad (n : Nat) (s : SeqCPPRBState) : SeqCPPRBState :=
  { s with sequenceBuffer :=
      s.sequenceBuffer.take s.t ++
        List.replicate (s.sequenceLength - s.t) (zeroTimestep n) }

/-- `SequenceCPPRB.end_of_episode`: when `_t > 0`, zero-pad the tail of
the window and push it; then (in the source) notify the cpprb store of
the episode boundary — bookkeeping internal to the external cpprb
library, not represented here — and reset `_t` to 0. -/
def SeqCPPRB.endOfEpisode (n : Nat) (s : SeqCPPRBState) : SeqCPPRBState :=
  if 0 < s.t then
    let padded := SeqCPPRB.zeroPad n s
    { sequenceLength := s.sequenceLength, t := 0,
      sequenceBuffer := padded.sequenceBuffer,
      pushed := s.pushed ++ [padded.sequenceBuffer] }
  else
    { s with t := 0 }

/-- A sequence of consecutive `SequenceCPPRB.add` calls. -/
def SeqCPPRB.addMany (s : SeqCPPRBState) (inps : List InputTimestep) :
    SeqCPPRBState :=
  inps.foldl SeqCPPRB.add s

/-! ## Flashbax replay buffer object (`FlashbaxReplayBuffer`) -/

/-- The possible failures of a `sample()` call.  `emptyBufferError` is
the error type the specification names; the code defines no such type,
and sampling an unpopulated buffer instead fails inside the jitted
flashbax sample function when it receives the uninitialised `None`
buffer state (`noneStateError`). -/
inductive SampleError where
  | emptyBufferError
  | noneStateError
  deriving Repr, DecidableEq

/-- The per-instance state of a `FlashbaxReplayBuffer`: the constructor
parameters, the optional buffer state (`None` until the first add or
bulk population), and the jax PRNG key seeded in `__init__`.  The key is
modelled as a `Nat`; `jax.random` functions are deterministic pure
functions of it and appear as explicit function parameters below. -/
structure FlashbaxRB where
  sequenceLength : Nat
  maxSize : Nat
  batchSize : Nat
  bufferState : Option BufferState
  rngKey : Nat
  deriving Repr, DecidableEq

/-- `FlashbaxReplayBuffer.__init__`: store the parameters, leave the
buffer state `None`, and seed the owned PRNG key from `seed`
(`jax.random.PRNGKey` is a deterministic injection of the seed). -/
def FlashbaxRB.init (sequenceLength maxSize batchSize seed : Nat) :
    FlashbaxRB :=
  { sequenceLength := sequenceLength
    maxSize := maxSize
    batchSize := batchSize
    bufferState := none
    rngKey := seed }

/-- `FlashbaxReplayBuffer.sample`: split the owned rng key (the first
half replaces `_rng_key`, the second is the sample key), then run the
flashbax sample function on the buffer state.  `split` models
`jax.random.split` and `sampleFn` the jitted `_buffer_sample_fn`; both
are pure functions.  When the buffer state is still `None` the flashbax
call fails on the `None` operand, which the model surfaces as
`noneStateError`. -/
def FlashbaxRB.sample {Batch : Type} (split : Nat → Nat × Nat)
    (sampleFn : BufferState → Nat → Batch) (rb : FlashbaxRB) :
    FlashbaxRB × Except SampleError Batch :=
  let keys := split rb.rngKey
  match rb.bufferState with
  | none => ({ rb with rngKey := keys.1 }, Except.error SampleError.noneStateError)
  | some st => ({ rb with rngKey := keys.1 }, Except.ok (sampleFn st keys.2))

/-- The list of batches returned by `count` successive `sample()` calls. -/
def FlashbaxRB.sampleSeq {Batch : Type} (split : Nat → Nat × Nat)
    (sampleFn : BufferState → Nat → Batch) (rb : FlashbaxRB) :
    Nat → List (Except SampleError Batch)
  | 0 => []
  | count + 1 =>
    let step := FlashbaxRB.sample split sampleFn rb
    step.2 :: FlashbaxRB.sampleSeq split sampleFn step.1 count

/-- `FlashbaxReplayBuffer.populate_from_dataset` at the object level:
replace the buffer state with the state assembled from the decoded chunk
stream (propagating the `np.concatenate` failure on an empty episode
list). -/
abbrev bulkPopulate := populateFromDataset

def FlashbaxRB.populateFromDataset (rb : FlashbaxRB)
    (period maxEpisodeLength : Nat) (chunks : List (List Timestep)) :
    Option FlashbaxRB :=
  (bulkPopulate period maxEpisodeLength chunks).map
    (fun bs => { rb with bufferState := some bs })

/-! ## Dataset file ordering (`OfflineMARLDataset.__init__`) -/

/-- A chunk file as seen by the sorting key: the subdirectory it lives
in (`file_name.split("/")[-2]`) and the numeric suffix parsed from the
`log_<num>` part of its name. -/
structure ChunkFile where
  subdir : String
  num : Nat
  deriving Repr, DecidableEq

/-- `get_fname_idx`: the directory's enumeration index times 1000 plus
the file's numeric suffix.  `subDirToIdx` is the `sub_dir_to_idx`
mapping built from `os.listdir`. -/
def getFnameIdx (subDirToIdx : String → Nat) (f : ChunkFile) : Nat :=
  subDirToIdx f.subdir * 1000 + f.num

/-- `sorted(filenames, key=get_fname_idx)`: Python's sort is stable;
insertion sort on `key a ≤ key b` preserves the relative order of
equal-key files and therefore computes the same list. -/
def sortFilenames (subDirToIdx : String → Nat)
    (files : List ChunkFile) : List ChunkFile :=
  files.insertionSort
    (fun a b => getFnameIdx subDirToIdx a ≤ getFnameIdx subDirToIdx b)

/-- File `a` is consumed before file `b`: both occur in the ordered list
and `a`'s (first) position precedes `b`'s.  The dataset pipeline
(`flat_map` over the sorted filename list) reads files exactly in list
order. -/
def consumedBefore (l : List ChunkFile) (a b : ChunkFile) : Prop :=
  a ∈ l ∧ b ∈ l ∧ l.indexOf a < l.indexOf b

instance (l : List ChunkFile) (a b : ChunkFile) :
    Decidable (consumedBefore l a b) := by
  unfold consumedBefore; infer_instance

/-! ## Attribute delegation (`OfflineMARLDataset.__getattr__`) -/

/-- The attributes `OfflineMARLDataset.__init__` assigns on the
instance. -/
def offlineDatasetInstanceAttrs : List String :=
  ["_environment", "_schema", "_agents", "raw_dataset", "period",
   "sequence_length", "max_episode_length"]

/-- The attributes defined on the `OfflineMARLDataset` class itself. -/
def offlineDatasetClassAttrs : List String :=
  ["__init__", "_decode_fn", "__getattr__"]

/-- Outcome of a Python attribute access on an `OfflineMARLDataset`. -/
inductive AttrResult where
  | found (name : String)
  | delegated (name : String)
  | recursionError
  deriving Repr, DecidableEq

/-- Python attribute lookup on an `OfflineMARLDataset` instance, with a
recursion-depth budget standing in for the interpreter's stack limit:
normal `__getattribute__` finds instance or class attributes; otherwise
`__getattr__` runs: it rechecks `hasattr(self.__class__, name)` (always
false here, since class attributes were already found) and falls back to
`getattr(self._tf_dataset, name)`, whose evaluation of
`self._tf_dataset` is itself a full attribute lookup. -/
def lookupAttr : Nat → String → AttrResult
  | 0, _ => AttrResult.recursionError
  | fuel + 1, name =>
    if name ∈ offlineDatasetInstanceAttrs ∨ name ∈ offlineDatasetClassAttrs then
      AttrResult.found name
    else if name ∈ offlineDatasetClassAttrs then
      AttrResult.found name
    else
      match lookupAttr fuel "_tf_dataset" with
      | AttrResult.found _ => AttrResult.delegated name
      | AttrResult.delegated _ => AttrResult.delegated name
      | AttrResult.recursionError => AttrResult.recursionError

/-! ## Shared helper lemmas -/

lemma maskSum_le_length (slice : List Timestep)
    (h : ∀ ts ∈ slice, ts.mask ≤ 1) : maskSum slice ≤ slice.length := by
  induction slice with
  | nil => simp [maskSum]
  | cons ts rest ih =>
    have hts : ts.mask ≤ 1 := h ts (by simp)
    have hrest := ih (fun x hx => h x (by simp [hx]))
    simp only [maskSum, List.map_cons, List.sum_cons, List.length_cons] at *
    omega

lemma sum_map_one {α : Type} (l : List α) (f : α → Nat)
    (h : ∀ a ∈ l, f a = 1) : (l.map f).sum = l.length := by
  induction l with
  | nil => simp
  | cons a rest ih =>
    simp only [List.map_cons, List.sum_cons, List.length_cons,
      h a (by simp), ih (fun x hx => h x (by simp [hx]))]
    omega

/-! ## C5 -/

/-- C5: for every decoded chunk and every agent, `_decode_fn` produces
`terminals[agent] = 1 - discounts[agent]` elementwise from the stored
discount field, and `truncations[agent]` all zeros with the shape of the
discount field. -/
theorem C5_decoder_terminals_truncations {A : Type} (ex : RawExample A)
    (a : A) :
    (decodeFn ex).terminals a = (ex.discounts a).map (fun d => 1 - d) ∧
    (decodeFn ex).truncations a = List.replicate (ex.discounts a).length 0 := by
  refine ⟨rfl, ?_⟩
  show (ex.discounts a).map (fun _ => 0) = _
  induction ex.discounts a with
  | nil => rfl
  | cons d rest ih => simp [List.replicate_succ, ih]

/-! ## C10 -/

/-- C10: an attribute defined neither on the instance nor on the class is
never delegated to the wrapped dataset: the fallback reads
`self._tf_dataset`, which is never assigned, so the lookup recurses
through `__getattr__` until the interpreter's depth budget is exhausted,
and the access fails with a recursion error instead of forwarding to
`raw_dataset`. -/
theorem C10_getattr_never_delegates (fuel : Nat) (name : String)
    (h1 : name ∉ offlineDatasetInstanceAttrs)
    (h2 : name ∉ offlineDatasetClassAttrs) :
    lookupAttr fuel name = AttrResult.recursionError := by
  induction fuel generalizing name with
  | zero => rfl
  | succ fuel ih =>
    have htf1 : "_tf_dataset" ∉ offlineDatasetInstanceAttrs := by decide
    have htf2 : "_tf_dataset" ∉ offlineDatasetClassAttrs := by decide
    simp only [lookupAttr, ih "_tf_dataset" htf1 htf2]
    rw [if_neg (by push_neg; exact ⟨h1, h2⟩), if_neg h2]

/-- Witness for C10 at a concrete attribute name and depth budget. -/
theorem C10_witness :
    "element_spec" ∉ offlineDatasetInstanceAttrs ∧
    "element_spec" ∉ offlineDatasetClassAttrs ∧
    lookupAttr 50 "element_spec" = AttrResult.recursionError :=
  ⟨by decide, by decide,
    C10_getattr_never_delegates 50 "element_spec" (by decide) (by decide)⟩

/-! ## C6 (corrected) -/

/-- C6 counterexample: sampling the freshly constructed buffer (no data
ever added, buffer state still `None`) fails, but with the untyped
failure of running the flashbax sample function on `None` — not with an
`EmptyBufferError`, which the code never defines or raises. -/
theorem C6_counterexample :
    (FlashbaxRB.sample (fun k => (k + 1, k + 2))
        (fun (_ : BufferState) (_ : Nat) => (0 : Nat))
        (FlashbaxRB.init 20 50000 32 42)).2 =
      Except.error SampleError.noneStateError ∧
    SampleError.noneStateError ≠ SampleError.emptyBufferError :=
  ⟨rfl, by decide⟩

/-- C6 amended: sampling from a store to which no data has ever been
added fails immediately — the uninitialised `None` buffer state makes
the flashbax sample call raise — but the failure is an untyped error,
not a dedicated `EmptyBufferError`. -/
theorem C6_sample_unpopulated_fails {Batch : Type} (split : Nat → Nat × Nat)
    (sampleFn : BufferState → Nat → Batch) (rb : FlashbaxRB)
    (h : rb.bufferState = none) :
    (FlashbaxRB.sample split sampleFn rb).2 =
      Except.error SampleError.noneStateError := by
  simp [FlashbaxRB.sample, h]

/-- Witness for the amended C6 on a freshly constructed buffer. -/
theorem C6_witness :
    (FlashbaxRB.init 20 50000 32 42).bufferState = none ∧
    (FlashbaxRB.sample (fun k => (k + 1, k + 2))
        (fun (_ : BufferState) (_ : Nat) => (0 : Nat))
        (FlashbaxRB.init 20 50000 32 42)).2 =
      Except.error SampleError.noneStateError :=
  ⟨rfl, C6_sample_unpopulated_fails _ _ _ rfl⟩

/-! ## C2 (corrected) -/

/-- A concrete decoded terminal timestep (one agent, terminal flag set,
valid mask), used by counterexamples and witnesses. -/
def tsTerm : Timestep :=
  { observations := [5], actions := [1], rewards := [1], terminals := [1],
    truncations := [0], legals := [1], state := 3, mask := 1 }

/-- C2 counterexample: bulk-populating a buffer of `max_size = 1` with
one emitted episode of length 1 leaves `current_index = 0` (not the
concatenated length 1) and `is_full = False` (although the length
reached `max_size`). -/
theorem C2_counterexample :
    FlashbaxRB.populateFromDataset (FlashbaxRB.init 1 1 1 0) 1 1 [[tsTerm]] =
      some { sequenceLength := 1, maxSize := 1, batchSize := 1,
             bufferState := some { experience := [tsTerm],
                                   currentIndex := 0, isFull := false },
             rngKey := 0 } ∧
    ¬ (({ experience := [tsTerm], currentIndex := 0, isFull := false } :
          BufferState).currentIndex = [tsTerm].length) ∧
    [tsTerm].length ≥ (FlashbaxRB.init 1 1 1 0).maxSize ∧
    ({ experience := [tsTerm], currentIndex := 0, isFull := false } :
          BufferState).isFull = false := by
  refine ⟨?_, by decide, by decide, rfl⟩
  rfl

/-- C2 amended: after bulk population the store's write cursor is set to
0 and the full flag to `False`, unconditionally — regardless of the
concatenated length of the emitted episodes and of `max_size`. -/
theorem C2_populate_cursor_and_flag (period maxEpisodeLength : Nat)
    (chunks : List (List Timestep)) (bs : BufferState)
    (h : populateFromDataset period maxEpisodeLength chunks = some bs) :
    bs.currentIndex = 0 ∧ bs.isFull = false := by
  simp only [populateFromDataset] at h
  split at h
  · exact absurd h (by simp)
  · cases h
    exact ⟨rfl, rfl⟩

/-- Witness for the amended C2 on a concrete one-chunk dataset. -/
theorem C2_witness :
    populateFromDataset 1 1 [[tsTerm]] =
      some { experience := [tsTerm], currentIndex := 0, isFull := false } ∧
    ({ experience := [tsTerm], currentIndex := 0, isFull := false } :
        BufferState).currentIndex = 0 ∧
    ({ experience := [tsTerm], currentIndex := 0, isFull := false } :
        BufferState).isFull = false :=
  ⟨rfl, C2_populate_cursor_and_flag 1 1 [[tsTerm]] _ rfl⟩

/-! ## C7 -/

lemma sample_congr {Batch : Type} (split : Nat → Nat × Nat)
    (sampleFn : BufferState → Nat → Batch) (rb1 rb2 : FlashbaxRB)
    (hkey : rb1.rngKey = rb2.rngKey)
    (hstate : rb1.bufferState = rb2.bufferState) :
    (FlashbaxRB.sample split sampleFn rb1).2 =
      (FlashbaxRB.sample split sampleFn rb2).2 ∧
    (FlashbaxRB.sample split sampleFn rb1).1.rngKey =
      (FlashbaxRB.sample split sampleFn rb2).1.rngKey ∧
    (FlashbaxRB.sample split sampleFn rb1).1.bufferState =
      (FlashbaxRB.sample split sampleFn rb2).1.bufferState := by
  cases h1 : rb1.bufferState with
  | none =>
    have h2 : rb2.bufferState = none := hstate ▸ h1
    simp [FlashbaxRB.sample, h1, h2, hkey]
  | some st =>
    have h2 : rb2.bufferState = some st := hstate ▸ h1
    simp [FlashbaxRB.sample, h1, h2, hkey]

/-- C7: sampling randomness is derived only from the per-instance rng
key, which advances on each `sample` call (the kept half of
`jax.random.split`); two buffer instances holding the same rng key and
equal buffer contents return identical batch sequences over any number
of successive `sample()` calls, for any (pure, deterministic) split and
sample functions — there is no dependence on global shared mutable
randomness. -/
theorem C7_sampling_reproducible {Batch : Type} (split : Nat → Nat × Nat)
    (sampleFn : BufferState → Nat → Batch) (rb1 rb2 : FlashbaxRB)
    (hkey : rb1.rngKey = rb2.rngKey)
    (hstate : rb1.bufferState = rb2.bufferState) :
    (∀ count, FlashbaxRB.sampleSeq split sampleFn rb1 count =
        FlashbaxRB.sampleSeq split sampleFn rb2 count) ∧
    (FlashbaxRB.sample split sampleFn rb1).1.rngKey = (split rb1.rngKey).1 := by
  constructor
  · intro count
    induction count generalizing rb1 rb2 with
    | zero => rfl
    | succ count ih =>
      obtain ⟨hbatch, hk, hs⟩ := sample_congr split sampleFn rb1 rb2 hkey hstate
      simp only [FlashbaxRB.sampleSeq, hbatch, ih _ _ hk hs]
  · cases h1 : rb1.bufferState <;> simp [FlashbaxRB.sample, h1]

/-- Witness for C7: two instances constructed with the same seed. -/
theorem C7_witness :
    (∀ count, FlashbaxRB.sampleSeq (fun k => (k + 1, k + 2))
        (fun (st : BufferState) (k : Nat) => st.experience.length + k)
        (FlashbaxRB.init 4 8 2 7) count =
      FlashbaxRB.sampleSeq (fun k => (k + 1, k + 2))
        (fun st k => st.experience.length + k) (FlashbaxRB.init 4 8 2 7) count) ∧
    (FlashbaxRB.sample (fun k => (k + 1, k + 2))
        (fun st k => st.experience.length + k) (FlashbaxRB.init 4 8 2 7)).1.rngKey = 8 :=
  C7_sampling_reproducible (fun k => (k + 1, k + 2))
    (fun st k => st.experience.length + k)
    (FlashbaxRB.init 4 8 2 7) (FlashbaxRB.init 4 8 2 7) rfl rfl

/-! ## C3 -/

/-- C3: during reassembly an episode is emitted exactly when the last
timestep of the just-taken period-slice has `terminals == 1` for the
reference (first) agent, or the accumulated `episode_length` reached
`max_episode_length`; on emission the accumulated fields are truncated
to time-length exactly `episode_length` and the accumulator is reset to
empty (the hypotheses state the accumulator invariants: the running
length never exceeds the accumulated number of timesteps, and mask
entries are 0/1 flags). -/
theorem C3_emission_condition (period maxEpisodeLength : Nat)
    (s : ReassemblyState) (chunk : List Timestep)
    (hinv : s.episodeLength ≤ s.episode.flatten.length)
    (hm : ∀ ts ∈ chunk.take period, ts.mask ≤ 1) :
    ((processChunk period maxEpisodeLength s chunk).experience =
        s.experience ++
          [((s.episode ++ [chunk.take period]).flatten).take
              (s.episodeLength + maskSum (chunk.take period))] ↔
      emitCond period maxEpisodeLength s chunk) ∧
    (emitCond period maxEpisodeLength s chunk →
      processChunk period maxEpisodeLength s chunk =
        { episode := [], episodeLength := 0,
          experience := s.experience ++
            [((s.episode ++ [chunk.take period]).flatten).take
                (s.episodeLength + maskSum (chunk.take period))] } ∧
      (((s.episode ++ [chunk.take period]).flatten).take
          (s.episodeLength + maskSum (chunk.take period))).length =
        s.episodeLength + maskSum (chunk.take period)) ∧
    (¬ emitCond period maxEpisodeLength s chunk →
      processChunk period maxEpisodeLength s chunk =
        { episode := s.episode ++ [chunk.take period],
          episodeLength := s.episodeLength + maskSum (chunk.take period),
          experience := s.experience }) := by
  have hlen : (((s.episode ++ [chunk.take period]).flatten).take
      (s.episodeLength + maskSum (chunk.take period))).length =
      s.episodeLength + maskSum (chunk.take period) := by
    have htot : ((s.episode ++ [chunk.take period]).flatten).length =
        s.episode.flatten.length + (chunk.take period).length := by
      simp
    have h1 := maskSum_le_length (chunk.take period) hm
    rw [List.length_take, htot]
    omega
  by_cases hc : emitCond period maxEpisodeLength s chunk
  · refine ⟨⟨fun _ => hc, fun _ => ?_⟩, fun _ => ⟨?_, hlen⟩,
      fun hn => absurd hc hn⟩
    · simp [processChunk, if_pos hc]
    · simp [processChunk, if_pos hc]
  · refine ⟨⟨fun heq => ?_, fun hcc => absurd hcc hc⟩,
      fun hcc => absurd hcc hc, fun _ => by simp [processChunk, if_neg hc]⟩
    exfalso
    have hne : (processChunk period maxEpisodeLength s chunk).experience =
        s.experience := by
      simp [processChunk, if_neg hc]
    rw [hne] at heq
    simp at heq

/-- Witness for C3 on concrete accumulator state and chunk. -/
theorem C3_witness :
    (0 : Nat) ≤ ([] : List (List Timestep)).flatten.length ∧
    (∀ ts ∈ [tsTerm].take 1, ts.mask ≤ 1) ∧
    (emitCond 1 10 { episode := [], episodeLength := 0, experience := [] }
        [tsTerm] →
      processChunk 1 10 { episode := [], episodeLength := 0, experience := [] }
          [tsTerm] =
        { episode := [], episodeLength := 0,
          experience := [] ++
            [((([] : List (List Timestep)) ++ [[tsTerm].take 1]).flatten).take
                (0 + maskSum ([tsTerm].take 1))] } ∧
      (((([] : List (List Timestep)) ++ [[tsTerm].take 1]).flatten).take
          (0 + maskSum ([tsTerm].take 1))).length =
        0 + maskSum ([tsTerm].take 1)) :=
  ⟨by decide, by decide,
    (C3_emission_condition 1 10
      { episode := [], episodeLength := 0, experience := [] } [tsTerm]
      (by decide) (by decide)).2.1⟩

/-! ## C9 -/

/-- The emission condition fails at every step while folding the given
chunk list from the given accumulator state: no episode is emitted. -/
def processNoEmit (period maxEpisodeLength : Nat) :
    ReassemblyState → List (List Timestep) → Prop
  | _, [] => True
  | s, c :: rest =>
    ¬ emitCond period maxEpisodeLength s c ∧
      processNoEmit period maxEpisodeLength
        (processChunk period maxEpisodeLength s c) rest

/-- C9: if the chunk stream ends with trailing chunks for which the
termination condition is never met, the timesteps accumulated after the
last emitted episode are silently discarded — the store produced by
`populate_from_dataset` is identical to the one produced without the
trailing chunks. -/
theorem C9_trailing_accumulator_discarded (period maxEpisodeLength : Nat)
    (chunks extra : List (List Timestep))
    (hno : processNoEmit period maxEpisodeLength
      (chunks.foldl (processChunk period maxEpisodeLength)
        { episode := [], episodeLength := 0, experience := [] }) extra) :
    populateFromDataset period maxEpisodeLength (chunks ++ extra) =
      populateFromDataset period maxEpisodeLength chunks := by
  have key : ∀ (cs : List (List Timestep)) (s : ReassemblyState),
      processNoEmit period maxEpisodeLength s cs →
      (cs.foldl (processChunk period maxEpisodeLength) s).experience =
        s.experience := by
    intro cs
    induction cs with
    | nil => intro s _; rfl
    | cons c rest ih =>
      intro s h
      obtain ⟨h1, h2⟩ := h
      rw [List.foldl_cons]
      rw [ih _ h2]
      simp [processChunk, if_neg h1]
  simp only [populateFromDataset, List.foldl_append]
  rw [key extra _ hno]

/-- A concrete decoded non-terminal timestep. -/
def tsNonTerm : Timestep :=
  { observations := [4], actions := [0], rewards := [0], terminals := [0],
    truncations := [0], legals := [1], state := 2, mask := 1 }

/-- Witness for C9: one emitted episode followed by one unterminated
trailing chunk, which does not change the populated store. -/
theorem C9_witness :
    processNoEmit 1 10
      ([[tsTerm]].foldl (processChunk 1 10)
        { episode := [], episodeLength := 0, experience := [] })
      [[tsNonTerm]] ∧
    populateFromDataset 1 10 ([[tsTerm]] ++ [[tsNonTerm]]) =
      populateFromDataset 1 10 [[tsTerm]] :=
  ⟨⟨by decide, trivial⟩,
    C9_trailing_accumulator_discarded 1 10 [[tsTerm]] [[tsNonTerm]]
      ⟨by decide, trivial⟩⟩

/-! ## C4 -/

lemma take_succ_set {α : Type} (l : List α) (t : Nat) (v : α)
    (h : t < l.length) : (l.set t v).take (t + 1) = l.take t ++ [v] := by
  rw [List.set_eq_take_cons_drop v h, List.take_append_eq_append_take]
  have hlen : (l.take t).length = t := by
    rw [List.length_take]; omega
  rw [List.take_take, hlen]
  have h1 : min (t + 1) t = t := by omega
  have h2 : t + 1 - t = 1 := by omega
  rw [h1, h2]
  rfl

lemma addMany_fills_exact (inps : List InputTimestep) :
    ∀ (s : SeqCPPRBState),
      s.sequenceBuffer.length = s.sequenceLength →
      s.t + inps.length = s.sequenceLength →
      0 < inps.length →
      SeqCPPRB.addMany s inps =
        { sequenceLength := s.sequenceLength, t := 0,
          sequenceBuffer := s.sequenceBuffer.take s.t ++ inps.map writeSlot,
          pushed := s.pushed ++
            [s.sequenceBuffer.take s.t ++ inps.map writeSlot] } := by
  induction inps with
  | nil => intro s _ _ h; simp at h
  | cons x rest ih =>
    intro s hbuf hsum _
    rw [SeqCPPRB.addMany, List.foldl_cons]
    by_cases hr : rest = []
    · subst hr
      have ht : s.t + 1 = s.sequenceLength := by
        simp only [List.length_cons, List.length_nil] at hsum; omega
      have hlt : s.t < s.sequenceBuffer.length := by omega
      have hset : s.sequenceBuffer.set s.t (writeSlot x) =
          s.sequenceBuffer.take s.t ++ [writeSlot x] := by
        rw [List.set_eq_take_cons_drop _ hlt]
        rw [List.drop_eq_nil_of_le (by omega)]
      simp only [SeqCPPRB.add, if_pos ht, List.foldl_nil, List.map_cons,
        List.map_nil, hset]
    · have hrl : 0 < rest.length := List.length_pos.mpr hr
      have ht : ¬ (s.t + 1 = s.sequenceLength) := by
        simp only [List.length_cons] at hsum; omega
      have hlt : s.t < s.sequenceBuffer.length := by
        simp only [List.length_cons] at hsum; omega
      simp only [SeqCPPRB.add, if_neg ht]
      rw [← SeqCPPRB.addMany, ih _ (by simpa using hbuf)
        (by show s.t + 1 + rest.length = s.sequenceLength
            simp only [List.length_cons] at hsum; omega) hrl]
      simp only [take_succ_set _ _ _ hlt, List.map_cons, List.append_assoc,
        List.singleton_append]

lemma addMany_below_capacity (inps : List InputTimestep) :
    ∀ (s : SeqCPPRBState),
      s.sequenceBuffer.length = s.sequenceLength →
      s.t + inps.length < s.sequenceLength →
      SeqCPPRB.addMany s inps =
        { sequenceLength := s.sequenceLength, t := s.t + inps.length,
          sequenceBuffer := s.sequenceBuffer.take s.t ++ inps.map writeSlot ++
            s.sequenceBuffer.drop (s.t + inps.length),
          pushed := s.pushed } := by
  induction inps with
  | nil =>
    intro s hbuf _
    cases s
    simp [SeqCPPRB.addMany, List.take_append_drop]
  | cons x rest ih =>
    intro s hbuf hlt
    rw [SeqCPPRB.addMany, List.foldl_cons]
    have hxl : s.t + (x :: rest).length = s.t + 1 + rest.length := by
      simp only [List.length_cons]; omega
    have ht : ¬ (s.t + 1 = s.sequenceLength) := by omega
    have htb : s.t < s.sequenceBuffer.length := by
      simp only [List.length_cons] at hlt; omega
    simp only [SeqCPPRB.add, if_neg ht]
    rw [← SeqCPPRB.addMany, ih _ (by simpa using hbuf)
      (by show s.t + 1 + rest.length < s.sequenceLength
          simp only [List.length_cons] at hlt; omega)]
    have hdrop : (s.sequenceBuffer.set s.t (writeSlot x)).drop
        (s.t + 1 + rest.length) = s.sequenceBuffer.drop (s.t + 1 + rest.length) := by
      exact List.drop_set_of_lt _ _ (by omega)
    simp only [take_succ_set _ _ _ htb, hdrop, List.map_cons, hxl,
      List.append_assoc, List.singleton_append]

/-- C4: from a fresh window, calling `add` exactly `sequence_length`
times with no `end_of_episode` triggers exactly one push to the
underlying store, whose mask is all 1; calling `end_of_episode` after
`t` adds with `0 < t < sequence_length` triggers exactly one push whose
mask is 1 for the first `t` slots and 0 thereafter, and in that pushed
window every slot with `mask == 0` has all other fields equal to the
zero value of their type. -/
theorem C4_window_accumulator (n L t : Nat)
    (inpsFull inpsPartial : List InputTimestep)
    (hL : 0 < L) (hfull : inpsFull.length = L)
    (hpart : inpsPartial.length = t) (ht0 : 0 < t) (htL : t < L) :
    (SeqCPPRB.addMany (SeqCPPRB.init n L) inpsFull).pushed =
        [inpsFull.map writeSlot] ∧
    (∀ ts ∈ inpsFull.map writeSlot, ts.mask = 1) ∧
    (SeqCPPRB.endOfEpisode n
        (SeqCPPRB.addMany (SeqCPPRB.init n L) inpsPartial)).pushed =
      [inpsPartial.map writeSlot ++ List.replicate (L - t) (zeroTimestep n)] ∧
    (inpsPartial.map writeSlot ++
        List.replicate (L - t) (zeroTimestep n)).length = L ∧
    (∀ i, i < t →
      ((inpsPartial.map writeSlot ++
          List.replicate (L - t) (zeroTimestep n)).getD i
        (zeroTimestep n)).mask = 1) ∧
    (∀ i, t ≤ i → i < L →
      (inpsPartial.map writeSlot ++
          List.replicate (L - t) (zeroTimestep n)).getD i
        (zeroTimestep n) = zeroTimestep n) ∧
    (∀ ts ∈ inpsPartial.map writeSlot ++
        List.replicate (L - t) (zeroTimestep n),
      ts.mask = 0 → ts = zeroTimestep n) := by
  have hinitbuf : (SeqCPPRB.init n L).sequenceBuffer.length =
      (SeqCPPRB.init n L).sequenceLength := by
    simp [SeqCPPRB.init]
  have hmaplen : (inpsPartial.map writeSlot).length = t := by
    rw [List.length_map, hpart]
  constructor
  · rw [addMany_fills_exact inpsFull _ hinitbuf (by simp [SeqCPPRB.init, hfull])
      (by omega)]
    simp [SeqCPPRB.init]
  constructor
  · intro ts hts
    obtain ⟨inp, _, rfl⟩ := List.mem_map.mp hts
    rfl
  have hstate := addMany_below_capacity inpsPartial (SeqCPPRB.init n L)
    hinitbuf (by simp [SeqCPPRB.init, hpart, htL])
  constructor
  · rw [hstate]
    have ht' : (0 : Nat) < 0 + inpsPartial.length := by omega
    simp only [SeqCPPRB.endOfEpisode, SeqCPPRB.zeroPad, SeqCPPRB.init,
      if_pos ht']
    simp only [List.take_nil, List.nil_append, List.take_zero, Nat.zero_add,
      List.drop_replicate, hpart]
    rw [List.take_left' hmaplen]
  constructor
  · rw [List.length_append, hmaplen, List.length_replicate]
    omega
  constructor
  · intro i hi
    have hi' : i < (inpsPartial.map writeSlot).length := by omega
    rw [List.getD_append _ _ _ _ hi', List.getD_eq_getElem _ _ hi']
    rw [List.getElem_map]
    rfl
  constructor
  · intro i h1 h2
    rw [List.getD_append_right _ _ _ _ (by omega)]
    rcases Nat.lt_or_ge (i - (inpsPartial.map writeSlot).length) (L - t) with
      hlt | hge
    · rw [List.getD_eq_getElem _ _ (by simpa using hlt)]
      simp
    · exact List.getD_eq_default _ _ (by simpa using hge)
  · intro ts hts hmask
    rcases List.mem_append.mp hts with hmem | hmem
    · obtain ⟨inp, _, rfl⟩ := List.mem_map.mp hmem
      exact absurd hmask (by simp [writeSlot])
    · exact List.eq_of_mem_replicate hmem

/-- A concrete input timestep for one agent. -/
def sampleInput (k : Int) : InputTimestep :=
  { observations := [k], actions := [k], rewards := [k], terminals := [0],
    truncations := [0], legals := [1], state := k }

/-- Witness for C4 with `n = 1`, `sequence_length = 3`, `t = 1`. -/
theorem C4_witness :
    (0 : Nat) < 3 ∧
    [sampleInput 1, sampleInput 2, sampleInput 3].length = 3 ∧
    [sampleInput 7].length = 1 ∧ (0 : Nat) < 1 ∧ (1 : Nat) < 3 ∧
    ((SeqCPPRB.addMany (SeqCPPRB.init 1 3)
        [sampleInput 1, sampleInput 2, sampleInput 3]).pushed =
      [[sampleInput 1, sampleInput 2, sampleInput 3].map writeSlot] ∧
    (∀ ts ∈ [sampleInput 1, sampleInput 2, sampleInput 3].map writeSlot,
      ts.mask = 1) ∧
    (SeqCPPRB.endOfEpisode 1
        (SeqCPPRB.addMany (SeqCPPRB.init 1 3) [sampleInput 7])).pushed =
      [[sampleInput 7].map writeSlot ++
        List.replicate (3 - 1) (zeroTimestep 1)] ∧
    ([sampleInput 7].map writeSlot ++
        List.replicate (3 - 1) (zeroTimestep 1)).length = 3 ∧
    (∀ i, i < 1 →
      (([sampleInput 7].map writeSlot ++
          List.replicate (3 - 1) (zeroTimestep 1)).getD i
        (zeroTimestep 1)).mask = 1) ∧
    (∀ i, 1 ≤ i → i < 3 →
      ([sampleInput 7].map writeSlot ++
          List.replicate (3 - 1) (zeroTimestep 1)).getD i
        (zeroTimestep 1) = zeroTimestep 1) ∧
    (∀ ts ∈ [sampleInput 7].map writeSlot ++
        List.replicate (3 - 1) (zeroTimestep 1),
      ts.mask = 0 → ts = zeroTimestep 1)) :=
  ⟨by decide, rfl, rfl, by decide, by decide,
    C4_window_accumulator 1 3 1
      [sampleInput 1, sampleInput 2, sampleInput 3] [sampleInput 7]
      (by decide) rfl rfl (by decide) (by decide)⟩

/-! ## C8 (corrected) -/

/-- Concrete chunk files with colliding sort keys: subdirectory index 0
with numeric suffix 1000, and subdirectory index 1 with suffix 0, both
give key 1000. -/
def fileA : ChunkFile := { subdir := "a", num := 1000 }

/-- Second file of the colliding pair. -/
def fileB : ChunkFile := { subdir := "b", num := 0 }

/-- The directory-index map of the counterexample: "a" ↦ 0, "b" ↦ 1. -/
def dirIdxAB : String → Nat := fun s => if s = "b" then 1 else 0

/-- C8 counterexample: with two distinct files of equal key
(`0 * 1000 + 1000 = 1 * 1000 + 0`), the first is consumed before the
second, yet its key is not smaller — so "A is consumed before B exactly
when A's key is smaller" fails at this input. -/
theorem C8_counterexample :
    consumedBefore (sortFilenames dirIdxAB [fileA, fileB]) fileA fileB ∧
    ¬ (getFnameIdx dirIdxAB fileA < getFnameIdx dirIdxAB fileB) :=
  ⟨by decide, by decide⟩

/-- C8 amended: for every pair of chunk files with distinct keys, file A
is consumed before file B exactly when A's key
(directory index × 1000 + numeric suffix) is smaller than B's key; files
with equal keys (possible when a numeric suffix reaches 1000) keep their
relative enumeration order instead. -/
theorem C8_file_ordering (subDirToIdx : String → Nat)
    (files : List ChunkFile) (a b : ChunkFile)
    (ha : a ∈ files) (hb : b ∈ files)
    (hne : getFnameIdx subDirToIdx a ≠ getFnameIdx subDirToIdx b) :
    consumedBefore (sortFilenames subDirToIdx files) a b ↔
      getFnameIdx subDirToIdx a < getFnameIdx subDirToIdx b := by
  haveI : IsTotal ChunkFile
      (fun x y => getFnameIdx subDirToIdx x ≤ getFnameIdx subDirToIdx y) :=
    ⟨fun x y => Nat.le_total _ _⟩
  haveI : IsTrans ChunkFile
      (fun x y => getFnameIdx subDirToIdx x ≤ getFnameIdx subDirToIdx y) :=
    ⟨fun _ _ _ hxy hyz => Nat.le_trans hxy hyz⟩
  have hsorted : List.Sorted
      (fun x y => getFnameIdx subDirToIdx x ≤ getFnameIdx subDirToIdx y)
      (sortFilenames subDirToIdx files) := List.sorted_insertionSort
    (fun x y => getFnameIdx subDirToIdx x ≤ getFnameIdx subDirToIdx y) files
  have hperm : (sortFilenames subDirToIdx files).Perm files :=
    List.perm_insertionSort
      (fun x y => getFnameIdx subDirToIdx x ≤ getFnameIdx subDirToIdx y) files
  have ha' : a ∈ sortFilenames subDirToIdx files := hperm.mem_iff.mpr ha
  have hb' : b ∈ sortFilenames subDirToIdx files := hperm.mem_iff.mpr hb
  have hab : a ≠ b := fun h => hne (h ▸ rfl)
  have hia := List.indexOf_lt_length.mpr ha'
  have hib := List.indexOf_lt_length.mpr hb'
  have hgeta : (sortFilenames subDirToIdx files).get
      ⟨(sortFilenames subDirToIdx files).indexOf a, hia⟩ = a :=
    List.indexOf_get hia
  have hgetb : (sortFilenames subDirToIdx files).get
      ⟨(sortFilenames subDirToIdx files).indexOf b, hib⟩ = b :=
    List.indexOf_get hib
  constructor
  · rintro ⟨-, -, hidx⟩
    have hrel := hsorted.rel_get_of_lt
      (show (⟨(sortFilenames subDirToIdx files).indexOf a, hia⟩ :
          Fin (sortFilenames subDirToIdx files).length) <
        ⟨(sortFilenames subDirToIdx files).indexOf b, hib⟩ from hidx)
    rw [hgeta, hgetb] at hrel
    omega
  · intro hkey
    refine ⟨ha', hb', ?_⟩
    rcases Nat.lt_trichotomy ((sortFilenames subDirToIdx files).indexOf a)
      ((sortFilenames subDirToIdx files).indexOf b) with h | h | h
    · exact h
    · exfalso
      apply hab
      rw [← hgeta, ← hgetb]
      congr 1
      exact Fin.ext h
    · exfalso
      have hrel := hsorted.rel_get_of_lt
        (show (⟨(sortFilenames subDirToIdx files).indexOf b, hib⟩ :
            Fin (sortFilenames subDirToIdx files).length) <
          ⟨(sortFilenames subDirToIdx files).indexOf a, hia⟩ from h)
      rw [hgeta, hgetb] at hrel
      omega

/-- A third concrete file whose key (0) differs from `fileB`'s (1000). -/
def fileC : ChunkFile := { subdir := "a", num := 0 }

/-- Witness for the amended C8 on two files with distinct keys. -/
theorem C8_witness :
    fileC ∈ [fileC, fileB] ∧ fileB ∈ [fileC, fileB] ∧
    getFnameIdx dirIdxAB fileC ≠ getFnameIdx dirIdxAB fileB ∧
    (consumedBefore (sortFilenames dirIdxAB [fileC, fileB]) fileC fileB ↔
      getFnameIdx dirIdxAB fileC < getFnameIdx dirIdxAB fileB) :=
  ⟨by decide, by decide, by decide,
    C8_file_ordering dirIdxAB [fileC, fileB] fileC fileB
      (by decide) (by decide) (by decide)⟩

/-! ## C1 -/

lemma map_range_take {α : Type} (f : Nat → α) (s P : Nat) (h : P ≤ s) :
    ((List.range s).map f).take P = (List.range P).map f := by
  rw [← List.map_take, List.take_range, Nat.min_eq_left h]

lemma map_range_getLast {α : Type} (f : Nat → α) (P : Nat) (h : 0 < P) :
    ((List.range P).map f).getLast? = some (f (P - 1)) := by
  have hP : P = (P - 1) + 1 := by omega
  rw [hP, List.range_succ, List.map_append]
  simp

lemma sum_indicator_range (P t : Nat) (h : t ≤ P) :
    ((List.range P).map (fun j => if j < t then (1 : Nat) else 0)).sum = t := by
  induction P with
  | zero =>
    have ht : t = 0 := by omega
    simp [ht]
  | succ P ih =>
    rw [List.range_succ, List.map_append, List.sum_append]
    rcases Nat.lt_or_ge t (P + 1) with hlt | hge
    · have ht : t ≤ P := by omega
      rw [ih ht]
      have : ¬ (P < t) := by omega
      simp [this]
    · have ht : t = P + 1 := by omega
      subst ht
      rw [sum_map_one _ _ (fun j hj => by
        have hjp : j < P := List.mem_range.mp hj
        rw [if_pos (by omega)])]
      simp [List.length_range, Nat.lt_succ_self]

lemma flatten_map_range_slices {α : Type} (g : Nat → α) (p : Nat) :
    ∀ m, ((List.range m).map
        (fun i => (List.range p).map (fun j => g (i * p + j)))).flatten =
      (List.range (m * p)).map g := by
  intro m
  induction m with
  | zero => simp
  | succ m ih =>
    rw [List.range_succ, List.map_append, List.flatten_append, ih]
    have hmul : (m + 1) * p = m * p + p := by rw [Nat.succ_mul]
    rw [hmul, List.range_add, List.map_append]
    simp [List.map_map, Function.comp]

lemma map_range_getD {α β : Type} (l : List α) (f : α → β) (d : α) :
    (List.range l.length).map (fun k => f (l.getD k d)) = l.map f := by
  apply List.ext_get (by simp)
  intro i h1 h2
  simp only [List.get_eq_getElem, List.getElem_map, List.getElem_range]
  have hi : i < l.length := by simpa using h2
  rw [List.getD_eq_getElem _ _ hi]

lemma decodedChunk_eq (seqLen p n : Nat) (ep : List RawTimestep) (i : Nat) :
    (chunkAt seqLen p n ep i).map decodeTimestep =
      (List.range seqLen).map
        (fun j => decodeTimestep (ep.getD (i * p + j) (zeroRawTimestep n))) := by
  simp [chunkAt, List.map_map, Function.comp]

lemma decode_mask_eq (n : Nat) (ep : List RawTimestep)
    (hmask : ∀ ts ∈ ep, ts.mask = 1) (k : Nat) :
    (decodeTimestep (ep.getD k (zeroRawTimestep n))).mask =
      if k < ep.length then 1 else 0 := by
  rcases Nat.lt_or_ge k ep.length with hk | hk
  · rw [List.getD_eq_getElem _ _ hk, if_pos hk]
    exact hmask _ (List.getElem_mem hk)
  · rw [List.getD_eq_default _ _ hk, if_neg (by omega)]
    rfl

lemma maskSum_slice (n p : Nat) (ep : List RawTimestep)
    (hmask : ∀ ts ∈ ep, ts.mask = 1) (i : Nat)
    (hbound : ep.length ≤ i * p + p) :
    maskSum ((List.range p).map
        (fun j => decodeTimestep (ep.getD (i * p + j) (zeroRawTimestep n)))) =
      ep.length - i * p := by
  unfold maskSum
  rw [List.map_map]
  have hcongr : (List.range p).map
      (Timestep.mask ∘ fun j => decodeTimestep (ep.getD (i * p + j) (zeroRawTimestep n))) =
      (List.range p).map (fun j => if j < ep.length - i * p then (1 : Nat) else 0) := by
    apply List.map_congr_left
    intro j hj
    have hj' : j < p := List.mem_range.mp hj
    show (decodeTimestep (ep.getD (i * p + j) (zeroRawTimestep n))).mask = _
    rw [decode_mask_eq n ep hmask]
    rcases Nat.lt_or_ge (i * p + j) ep.length with hk | hk
    · rw [if_pos hk, if_pos (by omega)]
    · rw [if_neg (by omega), if_neg (by omega)]
  rw [hcongr, sum_indicator_range _ _ (by omega)]

lemma maskSum_slice_full (n p : Nat) (ep : List RawTimestep)
    (hmask : ∀ ts ∈ ep, ts.mask = 1) (i : Nat)
    (hbound : i * p + p ≤ ep.length) :
    maskSum ((List.range p).map
        (fun j => decodeTimestep (ep.getD (i * p + j) (zeroRawTimestep n)))) = p := by
  unfold maskSum
  rw [List.map_map]
  rw [sum_map_one _ _ (fun j hj => by
    have hj' : j < p := List.mem_range.mp hj
    show (decodeTimestep (ep.getD (i * p + j) (zeroRawTimestep n))).mask = 1
    rw [decode_mask_eq n ep hmask, if_pos (by omega)])]
  simp [List.length_range]

lemma slice_terminal_ne_one (n : Nat) (ep : List RawTimestep)
    (hterm : ∀ i, i + 1 < ep.length →
      (ep.getD i (zeroRawTimestep n)).discounts.getD 0 0 ≠ 0)
    (k : Nat) (hk : k + 1 < ep.length) :
    (decodeTimestep (ep.getD k (zeroRawTimestep n))).terminals.getD 0 0 ≠ 1 := by
  have hd := hterm k hk
  show ((ep.getD k (zeroRawTimestep n)).discounts.map
    (fun d => 1 - d)).getD 0 0 ≠ 1
  cases hds : (ep.getD k (zeroRawTimestep n)).discounts with
  | nil =>
    rw [hds] at hd
    simp at hd
  | cons d rest =>
    rw [hds] at hd
    rw [List.map_cons, List.getD_cons_zero] at *
    omega

lemma reassembly_prefix (n seqLen p maxLen : Nat) (ep : List RawTimestep)
    (hp : 0 < p) (hps : p ≤ seqLen)
    (hLmax : ep.length ≤ maxLen)
    (hmask : ∀ ts ∈ ep, ts.mask = 1)
    (hterm : ∀ i, i + 1 < ep.length →
      (ep.getD i (zeroRawTimestep n)).discounts.getD 0 0 ≠ 0) :
    ∀ m, m * p < ep.length →
      ((List.range m).map
          (fun i => (chunkAt seqLen p n ep i).map decodeTimestep)).foldl
          (processChunk p maxLen)
          { episode := [], episodeLength := 0, experience := [] } =
        { episode := (List.range m).map (fun i => (List.range p).map
            (fun j => decodeTimestep (ep.getD (i * p + j) (zeroRawTimestep n)))),
          episodeLength := m * p,
          experience := [] } := by
  intro m
  induction m with
  | zero => intro _; simp
  | succ m ih =>
    intro hlt
    have hmp : m * p + p = (m + 1) * p := (Nat.succ_mul m p).symm
    have hm : m * p < ep.length := by omega
    rw [List.range_succ, List.map_append, List.foldl_append, ih hm]
    simp only [List.map_cons, List.map_nil, List.foldl_cons, List.foldl_nil]
    rw [decodedChunk_eq]
    have hslice : ((List.range seqLen).map
        (fun j => decodeTimestep (ep.getD (m * p + j) (zeroRawTimestep n)))).take p =
        (List.range p).map
          (fun j => decodeTimestep (ep.getD (m * p + j) (zeroRawTimestep n))) :=
      map_range_take _ _ _ hps
    have hsum : maskSum ((List.range p).map
        (fun j => decodeTimestep (ep.getD (m * p + j) (zeroRawTimestep n)))) = p :=
      maskSum_slice_full n p ep hmask m (by omega)
    have hcond : ¬ emitCond p maxLen
        { episode := (List.range m).map (fun i => (List.range p).map
            (fun j => decodeTimestep (ep.getD (i * p + j) (zeroRawTimestep n)))),
          episodeLength := m * p,
          experience := [] }
        ((List.range seqLen).map
          (fun j => decodeTimestep (ep.getD (m * p + j) (zeroRawTimestep n)))) := by
      unfold emitCond
      push_neg
      constructor
      · rw [hslice]
        unfold agent0TerminalOfLast
        rw [map_range_getLast _ _ hp]
        show (decodeTimestep
          (ep.getD (m * p + (p - 1)) (zeroRawTimestep n))).terminals.getD 0 0 ≠ 1
        exact slice_terminal_ne_one n ep hterm (m * p + (p - 1)) (by omega)
      · rw [hslice]
        show m * p + maskSum _ < maxLen
        rw [hsum]
        omega
    simp only [processChunk, if_neg hcond]
    rw [hslice, hsum, List.map_append]
    simp [hmp]

lemma reassembly_emit (n seqLen p maxLen : Nat) (ep : List RawTimestep)
    (hp : 0 < p) (hps : p ≤ seqLen) (hn : 0 < n)
    (hL : 0 < ep.length) (hLmax : ep.length ≤ maxLen)
    (hmask : ∀ ts ∈ ep, ts.mask = 1)
    (hagents : ∀ ts ∈ ep, ts.discounts.length = n)
    (hterm : ∀ i, i + 1 < ep.length →
      (ep.getD i (zeroRawTimestep n)).discounts.getD 0 0 ≠ 0)
    (hlast : (ep.getD (ep.length - 1) (zeroRawTimestep n)).discounts.getD 0 0 = 0
      ∨ ep.length = maxLen) :
    ((List.range (numChunks p ep.length)).map
        (fun i => (chunkAt seqLen p n ep i).map decodeTimestep)).foldl
        (processChunk p maxLen)
        { episode := [], episodeLength := 0, experience := [] } =
      { episode := [], episodeLength := 0,
        experience := [ep.map decodeTimestep] } := by
  have hdm : p * numChunks p ep.length + (ep.length + p - 1) % p =
      ep.length + p - 1 := Nat.div_add_mod (ep.length + p - 1) p
  have hmod : (ep.length + p - 1) % p < p := Nat.mod_lt _ hp
  have hm0 : 0 < numChunks p ep.length := Nat.div_pos (by omega) hp
  have hcomm : p * numChunks p ep.length = numChunks p ep.length * p :=
    Nat.mul_comm _ _
  have hpm : p ≤ numChunks p ep.length * p := Nat.le_mul_of_pos_left p hm0
  have hLle : ep.length ≤ numChunks p ep.length * p := by omega
  have hsub : (numChunks p ep.length - 1) * p = numChunks p ep.length * p - p := by
    rw [Nat.sub_mul, Nat.one_mul]
  have hm1 : (numChunks p ep.length - 1) * p < ep.length := by omega
  have hmsucc : numChunks p ep.length = (numChunks p ep.length - 1) + 1 := by
    omega
  conv_lhs => rw [hmsucc, List.range_succ]
  rw [List.map_append, List.foldl_append,
    reassembly_prefix n seqLen p maxLen ep hp hps hLmax hmask hterm
      (numChunks p ep.length - 1) hm1]
  simp only [List.map_cons, List.map_nil, List.foldl_cons, List.foldl_nil]
  rw [decodedChunk_eq]
  have hslice := map_range_take
    (fun j => decodeTimestep
      (ep.getD ((numChunks p ep.length - 1) * p + j) (zeroRawTimestep n)))
    seqLen p hps
  have hsum := maskSum_slice n p ep hmask (numChunks p ep.length - 1)
    (by omega)
  have hcond : emitCond p maxLen
      { episode := (List.range (numChunks p ep.length - 1)).map
          (fun i => (List.range p).map
            (fun j => decodeTimestep (ep.getD (i * p + j) (zeroRawTimestep n)))),
        episodeLength := (numChunks p ep.length - 1) * p,
        experience := [] }
      ((List.range seqLen).map
        (fun j => decodeTimestep
          (ep.getD ((numChunks p ep.length - 1) * p + j) (zeroRawTimestep n)))) := by
    unfold emitCond
    rcases hlast with hlast0 | hlastLen
    · left
      rw [hslice]
      unfold agent0TerminalOfLast
      rw [map_range_getLast _ _ hp]
      show (decodeTimestep
        (ep.getD ((numChunks p ep.length - 1) * p + (p - 1))
          (zeroRawTimestep n))).terminals.getD 0 0 = 1
      rcases Nat.lt_or_ge ((numChunks p ep.length - 1) * p + (p - 1))
        ep.length with hkL | hkL
      · have hkeq : (numChunks p ep.length - 1) * p + (p - 1) =
            ep.length - 1 := by omega
        rw [hkeq]
        have hmem : ep.getD (ep.length - 1) (zeroRawTimestep n) ∈ ep := by
          rw [List.getD_eq_getElem _ _ (by omega)]
          exact List.getElem_mem (by omega)
        have hlen := hagents _ hmem
        show ((ep.getD (ep.length - 1) (zeroRawTimestep n)).discounts.map
          (fun d => 1 - d)).getD 0 0 = 1
        cases hds : (ep.getD (ep.length - 1) (zeroRawTimestep n)).discounts with
        | nil =>
          rw [hds] at hlen
          simp at hlen
          omega
        | cons d rest =>
          rw [hds] at hlast0
          rw [List.getD_cons_zero] at hlast0
          rw [List.map_cons, List.getD_cons_zero]
          omega
      · rw [List.getD_eq_default _ _ hkL]
        show ((zeroRawTimestep n).discounts.map (fun d => 1 - d)).getD 0 0 = 1
        cases n with
        | zero => omega
        | succ n' => simp [zeroRawTimestep, List.replicate_succ]
    · right
      rw [hslice, hsum]
      show (numChunks p ep.length - 1) * p +
        (ep.length - (numChunks p ep.length - 1) * p) ≥ maxLen
      omega
  simp only [processChunk, if_pos hcond]
  rw [hslice, hsum]
  have hnewLen : (numChunks p ep.length - 1) * p +
      (ep.length - (numChunks p ep.length - 1) * p) = ep.length := by omega
  rw [hnewLen]
  have hjoin : (List.range (numChunks p ep.length - 1)).map
        (fun i => (List.range p).map
          (fun j => decodeTimestep (ep.getD (i * p + j) (zeroRawTimestep n)))) ++
      [(List.range p).map
        (fun j => decodeTimestep
          (ep.getD ((numChunks p ep.length - 1) * p + j) (zeroRawTimestep n)))] =
      (List.range (numChunks p ep.length)).map
        (fun i => (List.range p).map
          (fun j => decodeTimestep (ep.getD (i * p + j) (zeroRawTimestep n)))) := by
    conv_rhs => rw [hmsucc, List.range_succ]
    rw [List.map_append]
    rfl
  rw [hjoin,
    flatten_map_range_slices
      (fun k => decodeTimestep (ep.getD k (zeroRawTimestep n))) p
      (numChunks p ep.length),
    map_range_take (fun k => decodeTimestep (ep.getD k (zeroRawTimestep n)))
      (numChunks p ep.length * p) ep.length hLle,
    map_range_getD ep decodeTimestep (zeroRawTimestep n)]
  rfl

/-- C1: an episode of length `L ≤ max_episode_length` recorded as
overlapping chunks of length `sequence_length` at stride `period` (zero
padding past the true end), decoded and reassembled by
`populate_from_dataset`, is reconstructed exactly: the emitted episode
equals the decoded original timesteps field-for-field and in order, its
`mask==1` timesteps are all of it, and its length is exactly `L`.
Hypotheses: agents are nonempty with one discount entry per agent, every
original timestep carries `mask = 1`, no non-final timestep has
agent-0 discount 0, and the episode ends with an agent-0 terminal
(discount 0) or by reaching `max_episode_length`. -/
theorem C1_round_trip (n seqLen p maxLen : Nat) (ep : List RawTimestep)
    (hp : 0 < p) (hps : p ≤ seqLen) (hn : 0 < n)
    (hL : 0 < ep.length) (hLmax : ep.length ≤ maxLen)
    (hmask : ∀ ts ∈ ep, ts.mask = 1)
    (hagents : ∀ ts ∈ ep, ts.discounts.length = n)
    (hterm : ∀ i, i + 1 < ep.length →
      (ep.getD i (zeroRawTimestep n)).discounts.getD 0 0 ≠ 0)
    (hlast : (ep.getD (ep.length - 1) (zeroRawTimestep n)).discounts.getD 0 0 = 0
      ∨ ep.length = maxLen) :
    populateFromDataset p maxLen
        ((chunkEpisode seqLen p n ep).map (List.map decodeTimestep)) =
      some { experience := ep.map decodeTimestep, currentIndex := 0,
             isFull := false } ∧
    (ep.map decodeTimestep).length = ep.length ∧
    (ep.map decodeTimestep).filter (fun ts => ts.mask == 1) =
      ep.map decodeTimestep := by
  have hchunks : (chunkEpisode seqLen p n ep).map (List.map decodeTimestep) =
      (List.range (numChunks p ep.length)).map
        (fun i => (chunkAt seqLen p n ep i).map decodeTimestep) := by
    simp [chunkEpisode, List.map_map]
  refine ⟨?_, by simp, ?_⟩
  · rw [hchunks]
    simp only [populateFromDataset]
    rw [reassembly_emit n seqLen p maxLen ep hp hps hn hL hLmax hmask hagents
      hterm hlast]
    simp
  · rw [List.filter_eq_self]
    intro ts hts
    obtain ⟨r, hr, rfl⟩ := List.mem_map.mp hts
    have hm := hmask r hr
    simp [decodeTimestep, hm]

/-- One recorded step of the spec's scenario episode. -/
def scenarioStep (k d : Int) : RawTimestep :=
  { observations := [k], legalActions := [1], actions := [k], rewards := [1],
    discounts := [d], state := k, mask := 1 }

/-- The spec's scenario: a 6-step episode (timesteps 0..5) whose final
step is terminal (discount 0). -/
def scenarioEpisode : List RawTimestep :=
  [scenarioStep 0 1, scenarioStep 1 1, scenarioStep 2 1, scenarioStep 3 1,
   scenarioStep 4 1, scenarioStep 5 0]

/-- Witness for C1 at the spec scenario (`sequence_length = 4`,
`period = 2`, three chunks): the reassembled episode is timesteps 0..5,
length 6, with the terminal flag at index 5. -/
theorem C1_witness :
    (0 : Nat) < 2 ∧ (2 : Nat) ≤ 4 ∧ (0 : Nat) < 1 ∧
    0 < scenarioEpisode.length ∧ scenarioEpisode.length ≤ 20 ∧
    (populateFromDataset 2 20
        ((chunkEpisode 4 2 1 scenarioEpisode).map (List.map decodeTimestep)) =
      some { experience := scenarioEpisode.map decodeTimestep,
             currentIndex := 0, isFull := false } ∧
    (scenarioEpisode.map decodeTimestep).length = scenarioEpisode.length ∧
    (scenarioEpisode.map decodeTimestep).filter (fun ts => ts.mask == 1) =
      scenarioEpisode.map decodeTimestep) ∧
    (scenarioEpisode.map decodeTimestep).length = 6 ∧
    ((scenarioEpisode.map decodeTimestep).getD 5
      (zeroTimestep 1)).terminals.getD 0 0 = 1 :=
  ⟨by decide, by decide, by decide, by decide, by decide,
    C1_round_trip 1 4 2 20 scenarioEpisode (by decide) (by decide)
      (by decide) (by decide) (by decide) (by decide) (by decide)
      (fun i hi => by
        have h5 : i < 5 := by
          have h6 : i + 1 < 6 := hi
          omega
        interval_cases i <;> decide)
      (by decide),
    by decide, by decide⟩
